import Mathlib

/-!
# Gin middleware options of the rate limiter

A shallow embedding of `drivers/middleware/gin/options.go`:

* Go function values that may be `nil` are `Nilable` values,
* a Go function that receives a `*gin.Context` is a function from the context
  to an `Exec`, which records whether the call returned or panicked and the
  state of the context at that point,
* a Go `map[string]struct{}` is an association list with unique keys.
-/

/-- A Go value that may be `nil` (function values, interface values). -/
abbrev Nilable (α : Type) : Type := Option α

namespace Gin

/-! ## The Go map used by `DefaultExcludedKey` -/

/-- A Go `map[string]struct{}`: the entries in insertion order. -/
abbrev GoMap : Type := List (String × Unit)

/-- The call `make(map[string]struct{}, n)`: an empty map (the capacity hint `n` has no
observable effect). -/
def GoMap.make (_n : Nat) : GoMap := []

/-- The assignment `m[key] = v`: overwrite the entry of `key` when there is one, add an entry
otherwise. -/
def GoMap.set : GoMap → String → Unit → GoMap
  | [], key, v => [(key, v)]
  | (k, w) :: rest, key, v =>
    if k = key then (k, v) :: rest else (k, w) :: GoMap.set rest key v

/-- The lookup `v, ok := m[key]`: the entry of `key`, `none` standing for `ok = false`. -/
def GoMap.get : GoMap → String → Option Unit
  | [], _ => none
  | (k, w) :: rest, key => if k = key then some w else GoMap.get rest key

/-- ExcludedKey is the function type used to check whether the key should be
excluded or not. -/
abbrev ExcludedKey : Type := String → Bool

/-- The loop `for _, key := range keys { m[key] = struct{}{} }`. -/
def fillKeys (m : GoMap) (keys : List String) : GoMap :=
  keys.foldl (fun acc key => GoMap.set acc key ()) m

/-- DefaultExcludedKey builds the set of `keys` once and returns its membership
test. A nil slice is the empty list. -/
def DefaultExcludedKey (keys : List String) : ExcludedKey :=
  let m := fillKeys (GoMap.make keys.length) keys
  fun key => (GoMap.get m key).isSome

/-! ## The request context -/

/-- An error that has occurred: a non-nil value of the interface `error`, given
by its message. -/
abbrev GoError : Type := String

/-- Response headers, one value a name. -/
abbrev Header : Type := List (String × String)

/-- The lookup `h.Get(name)`: the value of `name`, `none` when the header is not set. -/
def Header.Get : Header → String → Nilable String
  | [], _ => none
  | (k, v) :: rest, name => if k = name then some v else Header.Get rest name

/-- Modelled from the spec: the per-request context of the host framework
(`*gin.Context`, which is not part of this repository), as section 6 describes
it: (a) an address accessor, (b) a way to write a status code and a body,
(c) a way to halt further handler execution in the chain. -/
structure Context where
  /-- what the address accessor reports for the request -/
  clientIP : String
  /-- the response headers -/
  header : Header
  /-- the status code of the response: the one sent once the response has been
  written, the one to send before that (200 on a new context) -/
  status : Nat
  /-- the body written so far; `none` as long as nothing has been written (the
  status line and the headers have not been sent either) -/
  body : Nilable String
  /-- whether the handler chain has been halted -/
  aborted : Bool
deriving DecidableEq, Repr

/-- Modelled from the spec: the method `c.ClientIP()` of the context, the
address accessor (a). It reads the context and changes nothing. -/
def Context.ClientIP (c : Context) : String := c.clientIP

/-- Modelled from the spec: the method `c.Abort()` of the context, which halts
further handler execution (c). -/
def Context.Abort (c : Context) : Context := { c with aborted := true }

/-- Modelled from the spec: the method `c.IsAborted()` of the context, whether
the chain has been halted. -/
def Context.IsAborted (c : Context) : Bool := c.aborted

/-- Modelled from the spec: the method `c.Writer.Written()` of the context,
whether the response has been written already. -/
def Context.Written (c : Context) : Bool := c.body.isSome

/-- Modelled from the spec: the method `c.Status(code)` of the context. It sets
the status code to send; once the response has been written the status is
fixed and the call changes nothing. -/
def Context.Status (c : Context) (code : Nat) : Context :=
  if 0 < code ∧ c.status ≠ code then
    if c.Written then c else { c with status := code }
  else c

/-- Whether a response with the status code `status` may carry a body
(`bodyAllowedForStatus` of the framework). -/
def bodyAllowedForStatus (status : Nat) : Bool :=
  if 100 ≤ status ∧ status ≤ 199 then false
  else if status = 204 then false
  else if status = 304 then false
  else true

/-- The content type `c.String` announces when none is set yet. -/
def plainContentType : String := "text/plain; charset=utf-8"

/-- The plain text renderer announcing its content type: the header
`Content-Type` is set unless it has a value. -/
def Context.writeContentType (c : Context) : Context :=
  if (Header.Get c.header "Content-Type").isSome then c
  else { c with header := c.header ++ [("Content-Type", plainContentType)] }

/-- The writer sending the status line and the headers if that has not
happened yet (`WriteHeaderNow`): from then on the response counts as written. -/
def Context.WriteHeaderNow (c : Context) : Context :=
  if c.Written then c else { c with body := some "" }

/-- The writer appending `data` to the body, after sending the status line and
the headers if needed. -/
def Context.Write (c : Context) (data : String) : Context :=
  { c.WriteHeaderNow with body := some (c.body.getD "" ++ data) }

/-- Modelled from the spec: the method `c.String(code, format)` of the context,
called without further values, the way to write a status code and a body (b).
As the framework does: it sets the status code (which has no effect on a
response already written), and for a status code that allows a body it
announces the plain text content type unless a content type is set and writes
`format` to the body; for a status code without body it only sends the status
line and the headers. Halting the chain is the separate capability (c): this
method leaves the aborted mark alone. -/
def Context.String (c : Context) (code : Nat) (format : String) : Context :=
  let c1 := c.Status code
  if bodyAllowedForStatus code then c1.writeContentType.Write format
  else c1.writeContentType.WriteHeaderNow

/-- The outcome of calling a Go function on a context: it returned `value`, or
it panicked with `value`; `ctx` is the context at that point. -/
inductive Exec (α : Type) where
  | returned (value : α) (ctx : Context)
  | panicked (value : GoError) (ctx : Context)

/-- The context as the call left it. -/
def Exec.ctx {α : Type} : Exec α → Context
  | .returned _ c => c
  | .panicked _ c => c

/-- Whether the call returned normally. -/
def Exec.hasReturned {α : Type} : Exec α → Bool
  | .returned _ _ => true
  | .panicked _ _ => false

/-- The value the call returned, `none` when it panicked. -/
def Exec.result {α : Type} : Exec α → Nilable α
  | .returned v _ => some v
  | .panicked _ _ => none

/-- The value the call panicked with, `none` when it returned. -/
def Exec.panicValue {α : Type} : Exec α → Nilable GoError
  | .returned _ _ => none
  | .panicked e _ => some e

/-- The constant `http.StatusTooManyRequests`. -/
def StatusTooManyRequests : Nat := 429

/-! ## Handler types and the middleware -/

/-- ErrorHandler is an handler used to inform when an error has occurred. -/
abbrev ErrorHandler : Type := Context → GoError → Exec Unit

/-- LimitReachedHandler is an handler used to inform when the limit has
exceeded. -/
abbrev LimitReachedHandler : Type := Context → Exec Unit

/-- KeyGetter will define the rate limiter key given the gin Context. -/
abbrev KeyGetter : Type := Context → Exec String

/-- Modelled from the spec: the `Middleware` struct, whose declaration is not
in `options.go`. Section 3: it holds `OnError`, `OnLimitReached`, `KeyGetter`,
`ExcludedKey` and a reference to an external `Limiter`. The type `L` of the
limiter reference is a parameter; the four function fields may be nil. -/
structure Middleware (L : Type) where
  Limiter : L
  OnError : Nilable ErrorHandler
  OnLimitReached : Nilable LimitReachedHandler
  KeyGetter : Nilable Gin.KeyGetter
  ExcludedKey : Nilable Gin.ExcludedKey

/-- The function type `option`: `func(*Middleware)`, the target of the pointer
passed in and out. -/
abbrev option (L : Type) : Type := Middleware L → Middleware L

/-- The method `apply` of `option`: calls the function on the middleware. -/
def option.apply {L : Type} (o : option L) (middleware : Middleware L) : Middleware L :=
  o middleware

/-- Option is used to define Middleware configuration: the interface with the
one method `apply`. -/
structure Option (L : Type) where
  apply : Middleware L → Middleware L

/-- The conversion of an `option` to the interface `Option`. -/
def option.toOption {L : Type} (o : option L) : Option L := ⟨option.apply o⟩

/-- WithErrorHandler will configure the Middleware to use the given
ErrorHandler. -/
def WithErrorHandler {L : Type} (handler : Nilable ErrorHandler) : Option L :=
  option.toOption (fun middleware => { middleware with OnError := handler })

/-- DefaultErrorHandler is the default ErrorHandler used by a new Middleware:
`panic(err)`. -/
def DefaultErrorHandler : ErrorHandler :=
  fun c err => Exec.panicked err c

/-- WithLimitReachedHandler will configure the Middleware to use the given
LimitReachedHandler. -/
def WithLimitReachedHandler {L : Type} (handler : Nilable LimitReachedHandler) : Option L :=
  option.toOption (fun middleware => { middleware with OnLimitReached := handler })

/-- DefaultLimitReachedHandler is the default LimitReachedHandler used by a new
Middleware: `c.String(http.StatusTooManyRequests, "Limit exceeded")`. -/
def DefaultLimitReachedHandler : LimitReachedHandler :=
  fun c => Exec.returned () (c.String StatusTooManyRequests "Limit exceeded")

/-- WithKeyGetter will configure the Middleware to use the given KeyGetter. -/
def WithKeyGetter {L : Type} (KeyGetter : Nilable Gin.KeyGetter) : Option L :=
  option.toOption (fun middleware => { middleware with KeyGetter := KeyGetter })

/-- DefaultKeyGetter is the default KeyGetter used by a new Middleware. It
returns the Client IP address. -/
def DefaultKeyGetter : KeyGetter :=
  fun c => Exec.returned c.ClientIP c

/-- WithExcludedKey will configure the Middleware to use the given
ExcludedKey. -/
def WithExcludedKey {L : Type} (fn : Nilable ExcludedKey) : Option L :=
  option.toOption (fun middleware => { middleware with ExcludedKey := fn })

/-! ## Sequences of Options -/

/-- The four fields an Option can target. -/
inductive Field where
  | OnError
  | OnLimitReached
  | KeyGetter
  | ExcludedKey
deriving DecidableEq, Repr

/-- A call of one of the four Option constructors, with its argument. -/
inductive Call where
  | withErrorHandler (handler : Nilable ErrorHandler)
  | withLimitReachedHandler (handler : Nilable LimitReachedHandler)
  | withKeyGetter (KeyGetter : Nilable Gin.KeyGetter)
  | withExcludedKey (fn : Nilable ExcludedKey)

/-- The Option the call builds. -/
def Call.toOption {L : Type} : Call → Option L
  | .withErrorHandler handler => WithErrorHandler handler
  | .withLimitReachedHandler handler => WithLimitReachedHandler handler
  | .withKeyGetter g => WithKeyGetter g
  | .withExcludedKey fn => WithExcludedKey fn

/-- The field the Option built by the call assigns. -/
def Call.target : Call → Field
  | .withErrorHandler _ => Field.OnError
  | .withLimitReachedHandler _ => Field.OnLimitReached
  | .withKeyGetter _ => Field.KeyGetter
  | .withExcludedKey _ => Field.ExcludedKey

/-- Applying Options in order: `option.apply(middleware)` for each `option` of
`options` in turn. -/
def applyAll {L : Type} (options : List (Option L)) (middleware : Middleware L) :
    Middleware L :=
  options.foldl (fun m o => o.apply m) middleware

/-- Applying the Options built by a sequence of constructor calls. -/
def applyCalls {L : Type} (calls : List Call) (middleware : Middleware L) : Middleware L :=
  applyAll (calls.map Call.toOption) middleware

/-- The handler of a call of `WithErrorHandler`. -/
def Call.errorHandler? : Call → Nilable (Nilable ErrorHandler)
  | .withErrorHandler handler => some handler
  | _ => none

/-- The handler of a call of `WithLimitReachedHandler`. -/
def Call.limitReachedHandler? : Call → Nilable (Nilable LimitReachedHandler)
  | .withLimitReachedHandler handler => some handler
  | _ => none

/-- The getter of a call of `WithKeyGetter`. -/
def Call.keyGetter? : Call → Nilable (Nilable Gin.KeyGetter)
  | .withKeyGetter g => some g
  | _ => none

/-- The predicate of a call of `WithExcludedKey`. -/
def Call.excludedKey? : Call → Nilable (Nilable ExcludedKey)
  | .withExcludedKey fn => some fn
  | _ => none

/-- The value passed to the last call of the sequence for which `arg` gives a
value, `none` when there is no such call. -/
def lastArg {α : Type} (arg : Call → Nilable α) (calls : List Call) : Nilable α :=
  (calls.filterMap arg).getLast?

/-- The calls of a sequence that target the field `f`, in their order. -/
def callsOn (f : Field) (calls : List Call) : List Call :=
  calls.filter (fun c => decide (c.target = f))

/-! ## Concrete inputs -/

/-- A request context on which nothing has been written and whose chain is
running. -/
def freshContext : Context :=
  { clientIP := "192.0.2.7", header := [], status := 200, body := none, aborted := false }

/-- A request context on which an earlier handler has written the response
`hello` with status 200. -/
def answeredContext : Context :=
  freshContext.String 200 "hello"

/-- An error handler that answers with status 500 and returns. -/
def answeringErrorHandler : ErrorHandler :=
  fun c _ => Exec.returned () (c.String 500 "Internal error")

/-- A base middleware whose handlers and key getter are the defaults, with no
exclusion predicate and a limiter reference without content. -/
def baseMiddleware : Middleware Unit :=
  { Limiter := ()
    OnError := some DefaultErrorHandler
    OnLimitReached := some DefaultLimitReachedHandler
    KeyGetter := some DefaultKeyGetter
    ExcludedKey := none }

/-! ## Lemmas on the map -/

theorem GoMap.get_set (m : GoMap) (key k : String) (v : Unit) :
    (GoMap.get (GoMap.set m key v) k).isSome
      = (decide (k = key) || (GoMap.get m k).isSome) := by
  induction m with
  | nil =>
    by_cases h : key = k
    · simp [GoMap.set, GoMap.get, h]
    · have h2 : ¬ k = key := fun e => h e.symm
      simp [GoMap.set, GoMap.get, h, h2]
  | cons p rest ih =>
    obtain ⟨a, w⟩ := p
    by_cases h1 : a = key
    · by_cases h2 : a = k
      · subst h1; subst h2; simp [GoMap.set, GoMap.get]
      · have h3 : ¬ k = key := fun e => h2 (h1.trans e.symm)
        subst h1
        simp [GoMap.set, GoMap.get, h2, h3]
    · by_cases h2 : a = k
      · subst h2
        simp [GoMap.set, GoMap.get, h1]
      · simp [GoMap.set, GoMap.get, h1, h2, ih]

theorem fillKeys_get (keys : List String) (m : GoMap) (k : String) :
    (GoMap.get (fillKeys m keys) k).isSome
      = ((GoMap.get m k).isSome || decide (k ∈ keys)) := by
  induction keys generalizing m with
  | nil => simp [fillKeys]
  | cons key rest ih =>
    have step : fillKeys m (key :: rest) = fillKeys (GoMap.set m key ()) rest := rfl
    rw [step, ih, GoMap.get_set]
    by_cases h : k = key
    · simp [h]
    · by_cases h2 : k ∈ rest
      · simp [h, h2]
      · simp [h, h2]

/-- The predicate built from `keys` is the membership test of `keys`. -/
theorem DefaultExcludedKey_eq (keys : List String) (k : String) :
    DefaultExcludedKey keys k = decide (k ∈ keys) := by
  unfold DefaultExcludedKey
  simp only [fillKeys_get]
  simp [GoMap.make, GoMap.get]

/-- C1: `DefaultExcludedKey keys k` is true exactly when `k` occurs in `keys`;
for the keys `a`, `b` it accepts `a` and `b` and rejects `c` and the empty
string, and for the empty (nil) list it rejects every key. -/
theorem DefaultExcludedKey_iff_mem :
    (∀ (keys : List String) (k : String),
        DefaultExcludedKey keys k = true ↔ k ∈ keys)
      ∧ DefaultExcludedKey ["a", "b"] "a" = true
      ∧ DefaultExcludedKey ["a", "b"] "b" = true
      ∧ DefaultExcludedKey ["a", "b"] "c" = false
      ∧ DefaultExcludedKey ["a", "b"] "" = false
      ∧ (∀ k : String, DefaultExcludedKey [] k = false) := by
  refine ⟨?_, ?_, ?_, ?_, ?_, ?_⟩
  · intro keys k
    simp [DefaultExcludedKey_eq]
  · decide
  · decide
  · decide
  · decide
  · intro k
    simp [DefaultExcludedKey_eq]

/-! ## Lemmas on sequences of Options -/

theorem applyCalls_nil {L : Type} (m : Middleware L) : applyCalls [] m = m := rfl

theorem applyCalls_cons {L : Type} (c : Call) (calls : List Call) (m : Middleware L) :
    applyCalls (c :: calls) m = applyCalls calls (c.toOption.apply m) := rfl

theorem applyCalls_concat {L : Type} (calls : List Call) (c : Call) (m : Middleware L) :
    applyCalls (calls ++ [c]) m = c.toOption.apply (applyCalls calls m) := by
  simp [applyCalls, applyAll, List.foldl_append]

theorem lastArg_nil {α : Type} (arg : Call → Nilable α) : lastArg arg [] = none := rfl

theorem lastArg_concat_some {α : Type} (arg : Call → Nilable α) (calls : List Call)
    (c : Call) (a : α) (h : arg c = some a) : lastArg arg (calls ++ [c]) = some a := by
  simp [lastArg, List.filterMap_append, List.filterMap_cons, h]

theorem lastArg_concat_none {α : Type} (arg : Call → Nilable α) (calls : List Call)
    (c : Call) (h : arg c = none) : lastArg arg (calls ++ [c]) = lastArg arg calls := by
  simp [lastArg, List.filterMap_append, List.filterMap_cons, h]

/-- The middleware a sequence of constructor calls produces, field by field. -/
theorem applyCalls_eq {L : Type} (calls : List Call) (m : Middleware L) :
    applyCalls calls m =
      { Limiter := m.Limiter
        OnError := (lastArg Call.errorHandler? calls).getD m.OnError
        OnLimitReached := (lastArg Call.limitReachedHandler? calls).getD m.OnLimitReached
        KeyGetter := (lastArg Call.keyGetter? calls).getD m.KeyGetter
        ExcludedKey := (lastArg Call.excludedKey? calls).getD m.ExcludedKey } := by
  induction calls using List.reverseRecOn with
  | nil => simp [applyCalls_nil, lastArg_nil]
  | append_singleton calls c ih =>
    rw [applyCalls_concat, ih]
    cases c with
    | withErrorHandler h =>
      rw [lastArg_concat_some Call.errorHandler? calls (Call.withErrorHandler h) h rfl,
        lastArg_concat_none Call.limitReachedHandler? calls (Call.withErrorHandler h) rfl,
        lastArg_concat_none Call.keyGetter? calls (Call.withErrorHandler h) rfl,
        lastArg_concat_none Call.excludedKey? calls (Call.withErrorHandler h) rfl]
      rfl
    | withLimitReachedHandler h =>
      rw [lastArg_concat_none Call.errorHandler? calls (Call.withLimitReachedHandler h) rfl,
        lastArg_concat_some Call.limitReachedHandler? calls (Call.withLimitReachedHandler h) h rfl,
        lastArg_concat_none Call.keyGetter? calls (Call.withLimitReachedHandler h) rfl,
        lastArg_concat_none Call.excludedKey? calls (Call.withLimitReachedHandler h) rfl]
      rfl
    | withKeyGetter h =>
      rw [lastArg_concat_none Call.errorHandler? calls (Call.withKeyGetter h) rfl,
        lastArg_concat_none Call.limitReachedHandler? calls (Call.withKeyGetter h) rfl,
        lastArg_concat_some Call.keyGetter? calls (Call.withKeyGetter h) h rfl,
        lastArg_concat_none Call.excludedKey? calls (Call.withKeyGetter h) rfl]
      rfl
    | withExcludedKey h =>
      rw [lastArg_concat_none Call.errorHandler? calls (Call.withExcludedKey h) rfl,
        lastArg_concat_none Call.limitReachedHandler? calls (Call.withExcludedKey h) rfl,
        lastArg_concat_none Call.keyGetter? calls (Call.withExcludedKey h) rfl,
        lastArg_concat_some Call.excludedKey? calls (Call.withExcludedKey h) h rfl]
      rfl

/-- C2: applying in order the Options built by any sequence of calls of
`WithErrorHandler`, `WithLimitReachedHandler`, `WithKeyGetter` and
`WithExcludedKey` to any base middleware gives, in each of the four fields, the
value passed to the last call that targets the field (`lastArg`), and the base
value when no call targets it. -/
theorem apply_last_write_wins {L : Type} (m : Middleware L) (calls : List Call) :
    (applyAll (calls.map Call.toOption) m).OnError
        = (lastArg Call.errorHandler? calls).getD m.OnError
      ∧ (applyAll (calls.map Call.toOption) m).OnLimitReached
        = (lastArg Call.limitReachedHandler? calls).getD m.OnLimitReached
      ∧ (applyAll (calls.map Call.toOption) m).KeyGetter
        = (lastArg Call.keyGetter? calls).getD m.KeyGetter
      ∧ (applyAll (calls.map Call.toOption) m).ExcludedKey
        = (lastArg Call.excludedKey? calls).getD m.ExcludedKey := by
  have h := applyCalls_eq calls m
  unfold applyCalls at h
  rw [h]
  exact ⟨rfl, rfl, rfl, rfl⟩

/-- C7: each Option assigns exactly one field. `WithErrorHandler` changes only
`OnError`, `WithLimitReachedHandler` only `OnLimitReached`, `WithKeyGetter`
only `KeyGetter`, `WithExcludedKey` only `ExcludedKey`; the other fields, the
`Limiter` reference among them, keep their values. -/
theorem option_assigns_one_field {L : Type} (m : Middleware L)
    (eh : Nilable ErrorHandler) (lh : Nilable LimitReachedHandler)
    (kg : Nilable KeyGetter) (ek : Nilable ExcludedKey) :
    (((WithErrorHandler eh).apply m).OnError = eh
        ∧ ((WithErrorHandler eh).apply m).Limiter = m.Limiter
        ∧ ((WithErrorHandler eh).apply m).OnLimitReached = m.OnLimitReached
        ∧ ((WithErrorHandler eh).apply m).KeyGetter = m.KeyGetter
        ∧ ((WithErrorHandler eh).apply m).ExcludedKey = m.ExcludedKey)
      ∧ (((WithLimitReachedHandler lh).apply m).OnLimitReached = lh
        ∧ ((WithLimitReachedHandler lh).apply m).Limiter = m.Limiter
        ∧ ((WithLimitReachedHandler lh).apply m).OnError = m.OnError
        ∧ ((WithLimitReachedHandler lh).apply m).KeyGetter = m.KeyGetter
        ∧ ((WithLimitReachedHandler lh).apply m).ExcludedKey = m.ExcludedKey)
      ∧ (((WithKeyGetter kg).apply m).KeyGetter = kg
        ∧ ((WithKeyGetter kg).apply m).Limiter = m.Limiter
        ∧ ((WithKeyGetter kg).apply m).OnError = m.OnError
        ∧ ((WithKeyGetter kg).apply m).OnLimitReached = m.OnLimitReached
        ∧ ((WithKeyGetter kg).apply m).ExcludedKey = m.ExcludedKey)
      ∧ (((WithExcludedKey ek).apply m).ExcludedKey = ek
        ∧ ((WithExcludedKey ek).apply m).Limiter = m.Limiter
        ∧ ((WithExcludedKey ek).apply m).OnError = m.OnError
        ∧ ((WithExcludedKey ek).apply m).OnLimitReached = m.OnLimitReached
        ∧ ((WithExcludedKey ek).apply m).KeyGetter = m.KeyGetter) :=
  ⟨⟨rfl, rfl, rfl, rfl, rfl⟩, ⟨rfl, rfl, rfl, rfl, rfl⟩,
    ⟨rfl, rfl, rfl, rfl, rfl⟩, ⟨rfl, rfl, rfl, rfl, rfl⟩⟩

/-- Filtering a sequence by a test that keeps every call `arg` reads does not
change what `arg` reads off the sequence. -/
theorem filterMap_filter_of_imp {α : Type} (arg : Call → Nilable α) (p : Call → Bool)
    (hp : ∀ c, (arg c).isSome = true → p c = true) (calls : List Call) :
    (calls.filter p).filterMap arg = calls.filterMap arg := by
  induction calls with
  | nil => rfl
  | cons c rest ih =>
    by_cases hc : p c = true
    · rw [List.filter_cons_of_pos hc]
      cases ha : arg c with
      | none => rw [List.filterMap_cons_none ha, List.filterMap_cons_none ha, ih]
      | some a => rw [List.filterMap_cons_some ha, List.filterMap_cons_some ha, ih]
    · rw [List.filter_cons_of_neg hc]
      cases ha : arg c with
      | none => rw [List.filterMap_cons_none ha, ih]
      | some a =>
        exfalso
        apply hc
        apply hp
        rw [ha]
        rfl

theorem lastArg_callsOn {α : Type} (arg : Call → Nilable α) (f : Field)
    (hf : ∀ c, (arg c).isSome = true → c.target = f) (calls : List Call) :
    lastArg arg (callsOn f calls) = lastArg arg calls := by
  unfold lastArg callsOn
  rw [filterMap_filter_of_imp arg _ _ calls]
  intro c hc
  simp [hf c hc]

theorem errorHandler_target (c : Call) (h : (c.errorHandler?).isSome = true) :
    c.target = Field.OnError := by
  cases c <;> simp [Call.errorHandler?, Call.target] at h ⊢

theorem limitReachedHandler_target (c : Call) (h : (c.limitReachedHandler?).isSome = true) :
    c.target = Field.OnLimitReached := by
  cases c <;> simp [Call.limitReachedHandler?, Call.target] at h ⊢

theorem keyGetter_target (c : Call) (h : (c.keyGetter?).isSome = true) :
    c.target = Field.KeyGetter := by
  cases c <;> simp [Call.keyGetter?, Call.target] at h ⊢

theorem excludedKey_target (c : Call) (h : (c.excludedKey?).isSome = true) :
    c.target = Field.ExcludedKey := by
  cases c <;> simp [Call.excludedKey?, Call.target] at h ⊢

/-- A sequence of calls is a rearrangement of its four subsequences by
field. -/
theorem callsOn_split (calls : List Call) :
    calls.Perm (callsOn Field.OnError calls ++ (callsOn Field.OnLimitReached calls
      ++ (callsOn Field.KeyGetter calls ++ callsOn Field.ExcludedKey calls))) := by
  induction calls with
  | nil => exact List.Perm.refl _
  | cons c rest ih =>
    cases c with
    | withErrorHandler h =>
      simpa [callsOn, Call.target] using ih
    | withLimitReachedHandler h =>
      simp only [callsOn, Call.target, List.filter_cons, decide_True, decide_False,
        reduceCtorEq, if_true, if_false, Bool.false_eq_true]
      exact (List.Perm.cons _ ih).trans List.perm_middle.symm
    | withKeyGetter h =>
      simp only [callsOn, Call.target, List.filter_cons, decide_True, decide_False,
        reduceCtorEq, if_true, if_false, Bool.false_eq_true]
      rw [← List.append_assoc]
      refine (List.Perm.cons _ ih).trans ?_
      rw [← List.append_assoc]
      exact List.perm_middle.symm
    | withExcludedKey h =>
      simp only [callsOn, Call.target, List.filter_cons, decide_True, decide_False,
        reduceCtorEq, if_true, if_false, Bool.false_eq_true]
      rw [← List.append_assoc, ← List.append_assoc]
      refine (List.Perm.cons _ ih).trans ?_
      rw [← List.append_assoc, ← List.append_assoc]
      exact List.perm_middle.symm

/-- Two sequences with the same subsequence on every field are permutations of
each other: equal subsequences by field describe exactly the reorderings that
keep the relative order of the calls on the same field. -/
theorem perm_of_callsOn_eq (l1 l2 : List Call)
    (hsame : ∀ f : Field, callsOn f l1 = callsOn f l2) : l1.Perm l2 := by
  have h1 := callsOn_split l1
  have h2 := callsOn_split l2
  rw [hsame Field.OnError, hsame Field.OnLimitReached, hsame Field.KeyGetter,
    hsame Field.ExcludedKey] at h1
  exact h1.trans h2.symm

/-- C8: Options built by two different constructors commute, and two
sequences of Options with the same subsequence of Options on every field (any
reordering that keeps the relative order of the Options targeting the same
field) give the same middleware. -/
theorem options_on_distinct_fields_commute {L : Type} (m : Middleware L)
    (c1 c2 : Call) (l1 l2 : List Call)
    (hdiff : c1.target ≠ c2.target)
    (hsame : ∀ f : Field, callsOn f l1 = callsOn f l2) :
    c2.toOption.apply (c1.toOption.apply m) = c1.toOption.apply (c2.toOption.apply m)
      ∧ applyAll (l1.map Call.toOption) m = applyAll (l2.map Call.toOption) m := by
  constructor
  · cases c1 <;> cases c2 <;> first
      | rfl
      | exact absurd rfl hdiff
  · have e1 := applyCalls_eq l1 m
    have e2 := applyCalls_eq l2 m
    unfold applyCalls at e1 e2
    rw [e1, e2]
    rw [← lastArg_callsOn Call.errorHandler? Field.OnError errorHandler_target l1,
      ← lastArg_callsOn Call.errorHandler? Field.OnError errorHandler_target l2,
      ← lastArg_callsOn Call.limitReachedHandler? Field.OnLimitReached
        limitReachedHandler_target l1,
      ← lastArg_callsOn Call.limitReachedHandler? Field.OnLimitReached
        limitReachedHandler_target l2,
      ← lastArg_callsOn Call.keyGetter? Field.KeyGetter keyGetter_target l1,
      ← lastArg_callsOn Call.keyGetter? Field.KeyGetter keyGetter_target l2,
      ← lastArg_callsOn Call.excludedKey? Field.ExcludedKey excludedKey_target l1,
      ← lastArg_callsOn Call.excludedKey? Field.ExcludedKey excludedKey_target l2,
      hsame Field.OnError, hsame Field.OnLimitReached, hsame Field.KeyGetter,
      hsame Field.ExcludedKey]

/-- C8 at a concrete input: a key getter and an error handler given in either
order, around a limit-reached handler. -/
theorem options_on_distinct_fields_commute_witness :
    (WithKeyGetter (some DefaultKeyGetter)).apply
        ((WithErrorHandler none).apply baseMiddleware)
      = (WithErrorHandler none).apply
        ((WithKeyGetter (some DefaultKeyGetter)).apply baseMiddleware)
    ∧ applyAll [WithErrorHandler none, WithLimitReachedHandler none,
          WithKeyGetter (some DefaultKeyGetter), WithErrorHandler (some DefaultErrorHandler)]
        baseMiddleware
      = applyAll [WithKeyGetter (some DefaultKeyGetter), WithErrorHandler none,
          WithErrorHandler (some DefaultErrorHandler), WithLimitReachedHandler none]
        baseMiddleware :=
  options_on_distinct_fields_commute baseMiddleware
    (Call.withErrorHandler none) (Call.withKeyGetter (some DefaultKeyGetter))
    [Call.withErrorHandler none, Call.withLimitReachedHandler none,
      Call.withKeyGetter (some DefaultKeyGetter),
      Call.withErrorHandler (some DefaultErrorHandler)]
    [Call.withKeyGetter (some DefaultKeyGetter), Call.withErrorHandler none,
      Call.withErrorHandler (some DefaultErrorHandler), Call.withLimitReachedHandler none]
    (by decide)
    (by intro f; cases f <;> rfl)

/-- C3 fails as stated: applied to a base middleware with the default error
handler and key getter, `WithErrorHandler(nil)` leaves `OnError` nil and
`WithKeyGetter(nil)` leaves `KeyGetter` nil; no default is put back. -/
theorem nil_handler_option_leaves_nil :
    baseMiddleware.OnError = some DefaultErrorHandler
      ∧ baseMiddleware.KeyGetter = some DefaultKeyGetter
      ∧ (applyAll [WithErrorHandler none] baseMiddleware).OnError = none
      ∧ (applyAll [WithKeyGetter none] baseMiddleware).KeyGetter = none :=
  ⟨rfl, rfl, rfl, rfl⟩

/-- C3, amended: for a base middleware whose `OnError` and `KeyGetter` are the
defaults and every sequence of Options, the resulting `OnError` is non-nil
exactly when the last Option of the sequence that targets `OnError`, if there
is one, was built with a non-nil handler, and the resulting `KeyGetter` is
non-nil exactly when the last Option that targets `KeyGetter`, if there is
one, was built with a non-nil getter. An Option built with nil stores nil; no
default is substituted. -/
theorem handler_set_iff_last_not_nil {L : Type} (m : Middleware L) (calls : List Call)
    (hE : m.OnError = some DefaultErrorHandler)
    (hK : m.KeyGetter = some DefaultKeyGetter) :
    ((applyAll (calls.map Call.toOption) m).OnError ≠ none
        ↔ lastArg Call.errorHandler? calls ≠ some none)
      ∧ ((applyAll (calls.map Call.toOption) m).KeyGetter ≠ none
        ↔ lastArg Call.keyGetter? calls ≠ some none) := by
  have h := applyCalls_eq calls m
  unfold applyCalls at h
  rw [h]
  constructor
  · show (lastArg Call.errorHandler? calls).getD m.OnError ≠ none ↔ _
    rw [hE]
    cases lastArg Call.errorHandler? calls with
    | none => simp
    | some a =>
      cases a with
      | none => simp
      | some g => simp
  · show (lastArg Call.keyGetter? calls).getD m.KeyGetter ≠ none ↔ _
    rw [hK]
    cases lastArg Call.keyGetter? calls with
    | none => simp
    | some a =>
      cases a with
      | none => simp
      | some g => simp

/-- C3, amended, at a concrete input: after a nil error handler, a nil key
getter and then an error handler of the caller, `OnError` is set (the last
Option on it is non-nil) and `KeyGetter` is nil (the last Option on it is
nil). -/
theorem handler_set_iff_last_not_nil_witness :
    (applyAll [WithErrorHandler none, WithKeyGetter none,
          WithErrorHandler (some answeringErrorHandler), WithLimitReachedHandler none]
        baseMiddleware).OnError ≠ none
      ∧ (applyAll [WithErrorHandler none, WithKeyGetter none,
          WithErrorHandler (some answeringErrorHandler), WithLimitReachedHandler none]
        baseMiddleware).KeyGetter = none :=
  have h := handler_set_iff_last_not_nil baseMiddleware
    [Call.withErrorHandler none, Call.withKeyGetter none,
      Call.withErrorHandler (some answeringErrorHandler), Call.withLimitReachedHandler none]
    rfl rfl
  ⟨h.1.mpr (by
      intro e
      cases e),
    Classical.not_not.mp (fun hne => h.2.mp hne rfl)⟩

/-! ## The default handlers -/

theorem Header.Get_append_of_ne (h : Header) (k v name : String) (hne : k ≠ name) :
    Header.Get (h ++ [(k, v)]) name = Header.Get h name := by
  induction h with
  | nil => simp [Header.Get, hne]
  | cons p rest ih =>
    obtain ⟨a, b⟩ := p
    by_cases ha : a = name
    · simp [Header.Get, ha]
    · simpa [Header.Get, ha] using ih

theorem Status_frame (c : Context) (code : Nat) :
    (c.Status code).body = c.body ∧ (c.Status code).aborted = c.aborted
      ∧ (c.Status code).clientIP = c.clientIP ∧ (c.Status code).header = c.header := by
  unfold Context.Status
  split
  · split
    · exact ⟨rfl, rfl, rfl, rfl⟩
    · exact ⟨rfl, rfl, rfl, rfl⟩
  · exact ⟨rfl, rfl, rfl, rfl⟩

theorem Status_status_of_new (c : Context) (code : Nat) (hnew : c.body = none)
    (hcode : 0 < code) : (c.Status code).status = code := by
  unfold Context.Status Context.Written
  rw [hnew]
  by_cases hs : c.status = code
  · simp [hs]
  · simp [hs, hcode]

theorem Status_status_of_written (c : Context) (code : Nat) (b : String)
    (hold : c.body = some b) : (c.Status code).status = c.status := by
  unfold Context.Status Context.Written
  rw [hold]
  split
  · rfl
  · rfl

theorem writeContentType_frame (c : Context) :
    c.writeContentType.body = c.body ∧ c.writeContentType.aborted = c.aborted
      ∧ c.writeContentType.clientIP = c.clientIP
      ∧ c.writeContentType.status = c.status := by
  unfold Context.writeContentType
  split
  · exact ⟨rfl, rfl, rfl, rfl⟩
  · exact ⟨rfl, rfl, rfl, rfl⟩

theorem WriteHeaderNow_frame (c : Context) :
    c.WriteHeaderNow.aborted = c.aborted ∧ c.WriteHeaderNow.clientIP = c.clientIP
      ∧ c.WriteHeaderNow.status = c.status ∧ c.WriteHeaderNow.header = c.header := by
  unfold Context.WriteHeaderNow
  split
  · exact ⟨rfl, rfl, rfl, rfl⟩
  · exact ⟨rfl, rfl, rfl, rfl⟩

theorem Write_frame (c : Context) (data : String) :
    (c.Write data).aborted = c.aborted ∧ (c.Write data).clientIP = c.clientIP
      ∧ (c.Write data).status = c.status ∧ (c.Write data).header = c.header
      ∧ (c.Write data).body = some (c.body.getD "" ++ data) := by
  have h := WriteHeaderNow_frame c
  exact ⟨h.1, h.2.1, h.2.2.1, h.2.2.2, rfl⟩

/-- Writing a response with a status code that allows a body: what the call
leaves in the context. -/
theorem writeString_body_allowed (c : Context) (code : Nat) (format : String)
    (hallowed : bodyAllowedForStatus code = true) :
    (c.String code format).status = (c.Status code).status
      ∧ (c.String code format).body = some (c.body.getD "" ++ format)
      ∧ (c.String code format).aborted = c.aborted
      ∧ (c.String code format).clientIP = c.clientIP := by
  have e : c.String code format = (c.Status code).writeContentType.Write format := by
    unfold Context.String
    simp only [hallowed, if_true]
  have hw := Write_frame (c.Status code).writeContentType format
  have ht := writeContentType_frame (c.Status code)
  have hs := Status_frame c code
  rw [e]
  refine ⟨?_, ?_, ?_, ?_⟩
  · rw [hw.2.2.1, ht.2.2.2]
  · rw [hw.2.2.2.2, ht.1, hs.1]
  · rw [hw.1, ht.2.1, hs.2.1]
  · rw [hw.2.1, ht.2.2.1, hs.2.2.1]

/-- Writing a plain text response leaves every header but the content type as
it was. -/
theorem writeString_keeps_header (c : Context) (code : Nat) (format name : String)
    (hne : "Content-Type" ≠ name) :
    Header.Get (c.String code format).header name = Header.Get c.header name := by
  have hw : ∀ d : Context,
      Header.Get d.writeContentType.header name = Header.Get d.header name := by
    intro d
    unfold Context.writeContentType
    split
    · rfl
    · exact Header.Get_append_of_ne d.header _ _ name hne
  have hs := (Status_frame c code).2.2.2
  by_cases hallowed : bodyAllowedForStatus code = true
  · have e : c.String code format = (c.Status code).writeContentType.Write format := by
      unfold Context.String
      simp only [hallowed, if_true]
    rw [e, (Write_frame _ format).2.2.2.1, hw, hs]
  · have e : c.String code format = (c.Status code).writeContentType.WriteHeaderNow := by
      unfold Context.String
      simp [hallowed]
    rw [e, (WriteHeaderNow_frame _).2.2.2, hw, hs]

/-- C4 fails as stated: on a context whose chain is running,
`DefaultLimitReachedHandler` returns with the context not marked aborted. -/
theorem DefaultLimitReachedHandler_leaves_chain_running :
    freshContext.IsAborted = false
      ∧ (DefaultLimitReachedHandler freshContext).hasReturned = true
      ∧ (DefaultLimitReachedHandler freshContext).ctx.IsAborted = false := by
  decide

/-- C4, amended: `DefaultLimitReachedHandler` returns normally and leaves the
aborted mark of the context as it found it; it does not halt the handler chain
itself. -/
theorem DefaultLimitReachedHandler_keeps_aborted (c : Context) :
    (DefaultLimitReachedHandler c).hasReturned = true
      ∧ (DefaultLimitReachedHandler c).ctx.IsAborted = c.IsAborted :=
  ⟨rfl, (writeString_body_allowed c StatusTooManyRequests "Limit exceeded" (by decide)).2.2.1⟩

/-- C5 fails as stated: on a context whose response has been written with
status 200 and body `hello`, `DefaultLimitReachedHandler` leaves the status at
200 and appends its text to the body. -/
theorem DefaultLimitReachedHandler_on_answered_context :
    answeredContext.status = 200
      ∧ answeredContext.body = some "hello"
      ∧ (DefaultLimitReachedHandler answeredContext).ctx.status = 200
      ∧ (DefaultLimitReachedHandler answeredContext).ctx.body = some "helloLimit exceeded" := by
  decide

/-- C5, amended: on every context on which nothing has been written yet,
`DefaultLimitReachedHandler` returns having written one response with status
code 429 and body `Limit exceeded`, whatever else the context holds; the header
`Retry-After` is as it was before. -/
theorem DefaultLimitReachedHandler_writes_429 (c : Context) (hnew : c.Written = false) :
    (DefaultLimitReachedHandler c).hasReturned = true
      ∧ (DefaultLimitReachedHandler c).ctx.Written = true
      ∧ (DefaultLimitReachedHandler c).ctx.status = 429
      ∧ (DefaultLimitReachedHandler c).ctx.body = some "Limit exceeded"
      ∧ Header.Get (DefaultLimitReachedHandler c).ctx.header "Retry-After"
        = Header.Get c.header "Retry-After"
      ∧ (DefaultLimitReachedHandler c).ctx.clientIP = c.clientIP := by
  have hbody : c.body = none := by
    cases hb : c.body with
    | none => rfl
    | some b => simp [Context.Written, hb] at hnew
  have hw := writeString_body_allowed c StatusTooManyRequests "Limit exceeded" (by decide)
  have hst := Status_status_of_new c StatusTooManyRequests hbody (by decide)
  have hhead := writeString_keeps_header c StatusTooManyRequests "Limit exceeded"
    "Retry-After" (by decide)
  have hb : (c.String StatusTooManyRequests "Limit exceeded").body
      = some "Limit exceeded" := by
    rw [hw.2.1, hbody]
    rfl
  refine ⟨rfl, ?_, ?_, hb, hhead, hw.2.2.2⟩
  · show (c.String StatusTooManyRequests "Limit exceeded").body.isSome = true
    rw [hb]
    rfl
  · show (c.String StatusTooManyRequests "Limit exceeded").status = 429
    rw [hw.1, hst]
    rfl

/-- C5, amended, at a concrete input: the handler on the new context. -/
theorem DefaultLimitReachedHandler_writes_429_witness :
    freshContext.Written = false
      ∧ (DefaultLimitReachedHandler freshContext).ctx.status = 429
      ∧ (DefaultLimitReachedHandler freshContext).ctx.body = some "Limit exceeded" :=
  have h := DefaultLimitReachedHandler_writes_429 freshContext rfl
  ⟨rfl, h.2.2.1, h.2.2.2.1⟩

/-- C6: `DefaultErrorHandler c err` never returns: it panics with exactly
`err`, and the context at the panic is `c`, with no status or body written. -/
theorem DefaultErrorHandler_panics (c : Context) (err : GoError) :
    (DefaultErrorHandler c err).hasReturned = false
      ∧ (DefaultErrorHandler c err).panicValue = some err
      ∧ (DefaultErrorHandler c err).ctx = c
      ∧ (DefaultErrorHandler c err).ctx.status = c.status
      ∧ (DefaultErrorHandler c err).ctx.body = c.body :=
  ⟨rfl, rfl, rfl, rfl, rfl⟩

/-- C9: `DefaultKeyGetter c` returns the client IP the context reports and
leaves the context as it was, so a second call returns the same key. -/
theorem DefaultKeyGetter_is_ClientIP (c : Context) :
    (DefaultKeyGetter c).result = some c.ClientIP
      ∧ (DefaultKeyGetter c).ctx = c
      ∧ (DefaultKeyGetter (DefaultKeyGetter c).ctx).result = (DefaultKeyGetter c).result :=
  ⟨rfl, rfl, rfl⟩

/-- C10: two key lists with the same set of strings give the same predicate;
order and repetitions do not matter. -/
theorem DefaultExcludedKey_same_set (keys1 keys2 : List String)
    (hset : ∀ s : String, s ∈ keys1 ↔ s ∈ keys2) (k : String) :
    DefaultExcludedKey keys1 k = DefaultExcludedKey keys2 k := by
  rw [DefaultExcludedKey_eq, DefaultExcludedKey_eq]
  exact decide_eq_decide.mpr (hset k)

/-- C10 at a concrete input: a list with a repeated key and a reordering of
its keys. -/
theorem DefaultExcludedKey_same_set_witness :
    DefaultExcludedKey ["a", "b", "a"] "a" = DefaultExcludedKey ["b", "a"] "a"
      ∧ DefaultExcludedKey ["a", "b", "a"] "c" = DefaultExcludedKey ["b", "a"] "c" :=
  have hset : ∀ s : String, s ∈ ["a", "b", "a"] ↔ s ∈ ["b", "a"] := by
    intro s
    simp only [List.mem_cons, List.mem_singleton]
    tauto
  ⟨DefaultExcludedKey_same_set ["a", "b", "a"] ["b", "a"] hset "a",
    DefaultExcludedKey_same_set ["a", "b", "a"] ["b", "a"] hset "c"⟩

end Gin
